import Mathlib

/-!
Shallow embedding of the byte-to-text formatting core of the hexdump
viewer (src/hexdump.go), together with proofs about its line formatters
and encoding converters.

Modelling conventions:
* Go `[]byte` values are `List Nat` whose elements are below 256 (the
  definitions are total on `Nat`; where a theorem needs the byte bound it
  carries it as a hypothesis).
* Go `int` arithmetic that can go negative (the padding arithmetic of
  `generateHexLine`) is done in `Int`, with `Int.div` for Go's
  truncate-toward-zero division.
* The Go slice expression `s[lo:hi]` panics when `lo > hi`; it is embedded
  as `goSlice`, returning `Option`, with `none` for the panic.
* `unicode.IsPrint` and the GB18030 decoder of golang.org/x/text live
  outside this repository; they are passed as explicit parameters
  (`P : Nat → Bool` for printability of a code point, and
  `decodeGB : List Nat → Option (List Nat)` returning the decoded code
  points on success and `none` on a decode error), exactly as the source
  consumes them.
* Output strings hold the emitted code points as `Char`s; `Char.ofNat`
  plays the role of `WriteRune`.
-/

namespace Hexdump

/-- `n` space characters, as written by the padding loops. -/
def spaces (n : Nat) : String :=
  String.mk (List.replicate n ' ')

/-- Uppercase hexadecimal digit for `n < 16` (as produced by `%X`). -/
def hexDigit (n : Nat) : Char :=
  if n < 10 then Char.ofNat (48 + n) else Char.ofNat (55 + n)

/-- `fmt.Sprintf("%02X", b)` for a byte `b` (`b < 256`, so two digits). -/
def byteHex (b : Nat) : String :=
  String.mk [hexDigit (b / 16), hexDigit (b % 16)]

/-- Minimal-width uppercase hexadecimal numeral, via a structurally
decreasing fuel argument (`fuel ≥ n + 1` always suffices). -/
def hexReprF : Nat → Nat → String
  | 0, _ => ""
  | fuel + 1, n =>
    if n < 16 then String.mk [hexDigit n]
    else hexReprF fuel (n / 16) ++ String.mk [hexDigit (n % 16)]

/-- Minimal-width uppercase hexadecimal numeral of `n` (what `%X` prints). -/
def hexRepr (n : Nat) : String :=
  hexReprF (n + 1) n

/-- Zero-pad a numeral to at least eight characters (the `08` in `%08X`). -/
def padZero8 (s : String) : String :=
  String.mk (List.replicate (8 - s.length) '0') ++ s

/-- `fmt.Sprintf("%08X: ", offset)`: the address field of a hex line. -/
def addrField (offset : Nat) : String :=
  padZero8 (hexRepr offset) ++ ": "

/-- The inner loop of `generateHexLine`: hex pairs of `count` consecutive
bytes starting at `index` (`for byteIndex := index; byteIndex < groupEnd`). -/
def hexGroupBytes (data : List Nat) : Nat → Nat → String
  | _, 0 => ""
  | index, count + 1 =>
    byteHex (data.getD index 0) ++ hexGroupBytes data (index + 1) count

/-- The outer loop of `generateHexLine`
(`for index := offset; index < lineEnd; index += bytesPerGroup`), with a
fuel argument for termination; `fuel ≥ lineEnd - index` suffices whenever
`0 < g` (in Go, `bytesPerGroup = 0` would loop forever). -/
def hexGroupsF (data : List Nat) (g lineEnd : Nat) : Nat → Nat → String
  | _, 0 => ""
  | index, fuel + 1 =>
    if index < lineEnd then
      let groupEnd := min (index + g) lineEnd
      hexGroupBytes data index (groupEnd - index)
        ++ (if groupEnd < lineEnd then " " else "")
        ++ hexGroupsF data g lineEnd (index + g) fuel
    else ""

/-- The hex-pair region of a line: all groups from `index` up to `lineEnd`. -/
def hexGroups (data : List Nat) (g lineEnd index : Nat) : String :=
  hexGroupsF data g lineEnd index (lineEnd - index)

/-- The padding block of `generateHexLine` (the `if bytesOnLine <
h.bytesPerLine` branch): two spaces per missing byte position and one per
missing group separator.  `bytesOnLine` is computed in `Int` because Go's
`lineEnd - offset` is negative when `offset > dataLen`; `Int.tdiv` is Go's
truncate-toward-zero integer division. -/
def hexLinePad (dataLen bytesPerLine g offset : Nat) : String :=
  let lineEnd := min (offset + bytesPerLine) dataLen
  let bytesOnLine : Int := (lineEnd : Int) - (offset : Int)
  if bytesOnLine < (bytesPerLine : Int) then
    let groupsOnLine := Int.tdiv (bytesOnLine + (g : Int) - 1) (g : Int)
    let totalGroups := Int.tdiv ((bytesPerLine : Int) + (g : Int) - 1) (g : Int)
    let missingGroups := totalGroups - groupsOnLine
    spaces (2 * ((bytesPerLine : Int) - bytesOnLine).toNat)
      ++ spaces missingGroups.toNat
  else ""

/-- The Go slice expression `data[lo:hi]` (with `hi ≤ len(data)`):
`none` models the runtime panic raised when `lo > hi` or `hi > len`. -/
def goSlice (data : List Nat) (lo hi : Nat) : Option (List Nat) :=
  if lo ≤ hi ∧ hi ≤ data.length then some ((data.drop lo).take (hi - lo))
  else none

/-- `bytesToLatin1`: printable ASCII and the ISO-8859-1 identity range are
emitted literally, everything else as `.`. -/
def bytesToLatin1 : List Nat → String
  | [] => ""
  | b :: rest =>
    (if 32 ≤ b ∧ b ≤ 126 then String.mk [Char.ofNat b]
     else if 160 ≤ b ∧ b ≤ 255 then String.mk [Char.ofNat b]
     else ".") ++ bytesToLatin1 rest

/-- First-byte acceptance lower bound of Go's `utf8.DecodeRune` tables. -/
def acceptLo (b0 : Nat) : Nat :=
  if b0 = 0xE0 then 0xA0 else if b0 = 0xF0 then 0x90 else 0x80

/-- First-byte acceptance upper bound of Go's `utf8.DecodeRune` tables. -/
def acceptHi (b0 : Nat) : Nat :=
  if b0 = 0xED then 0x9F else if b0 = 0xF4 then 0x8F else 0xBF

/-- Go's `utf8.DecodeRune`: returns the decoded code point and the number
of bytes consumed; `(0xFFFD, 0)` on empty input and `(0xFFFD, 1)` on an
invalid encoding. -/
def decodeRune : List Nat → Nat × Nat
  | [] => (0xFFFD, 0)
  | b0 :: rest =>
    if b0 < 0x80 then (b0, 1)
    else if b0 < 0xC2 then (0xFFFD, 1)
    else if b0 < 0xE0 then
      match rest with
      | b1 :: _ =>
        if acceptLo b0 ≤ b1 ∧ b1 ≤ acceptHi b0 then
          ((b0 % 32) <<< 6 ||| b1 % 64, 2)
        else (0xFFFD, 1)
      | [] => (0xFFFD, 1)
    else if b0 < 0xF0 then
      match rest with
      | b1 :: b2 :: _ =>
        if (acceptLo b0 ≤ b1 ∧ b1 ≤ acceptHi b0) ∧ 0x80 ≤ b2 ∧ b2 ≤ 0xBF then
          ((b0 % 16) <<< 12 ||| (b1 % 64) <<< 6 ||| b2 % 64, 3)
        else (0xFFFD, 1)
      | _ => (0xFFFD, 1)
    else if b0 < 0xF5 then
      match rest with
      | b1 :: b2 :: b3 :: _ =>
        if (acceptLo b0 ≤ b1 ∧ b1 ≤ acceptHi b0) ∧ (0x80 ≤ b2 ∧ b2 ≤ 0xBF)
            ∧ 0x80 ≤ b3 ∧ b3 ≤ 0xBF then
          ((b0 % 8) <<< 18 ||| (b1 % 64) <<< 12 ||| (b2 % 64) <<< 6 ||| b3 % 64, 4)
        else (0xFFFD, 1)
      | _ => (0xFFFD, 1)
    else (0xFFFD, 1)

/-- On nonempty input `decodeRune` always consumes at least one byte. -/
theorem decodeRune_size_pos (data : List Nat) (hne : data ≠ []) :
    1 ≤ (decodeRune data).2 := by
  match data with
  | [] => exact absurd rfl hne
  | b0 :: rest =>
    simp only [decodeRune]
    repeat' split
    all_goals simp

/-- `bytesToUTF8`: greedy decode, one `.` and a one-byte advance on each
decode failure (`r == RuneError && size == 1`). -/
def bytesToUTF8 (P : Nat → Bool) (data : List Nat) : String :=
  if hne : data = [] then ""
  else if (decodeRune data).1 = 0xFFFD ∧ (decodeRune data).2 = 1 then
    "." ++ bytesToUTF8 P (data.drop 1)
  else
    (if P (decodeRune data).1 then String.mk [Char.ofNat (decodeRune data).1]
      else ".")
      ++ bytesToUTF8 P (data.drop (decodeRune data).2)
termination_by data.length
decreasing_by
  · have h0 : 0 < data.length := List.length_pos.mpr hne
    simp only [List.length_drop]
    omega
  · have h0 : 0 < data.length := List.length_pos.mpr hne
    have h1 : 1 ≤ (decodeRune data).2 := decodeRune_size_pos data hne
    simp only [List.length_drop]
    omega

/-- `utf16.Decode` on a single code unit: a lone surrogate becomes the
replacement character, everything else maps to itself. -/
def utf16Rune (u : Nat) : Nat :=
  if 0xD800 ≤ u ∧ u < 0xE000 then 0xFFFD else u

/-- `bytesToUTF16LE`: little-endian pairs, each unit decoded independently;
a trailing unpaired byte emits one `.` and stops. -/
def bytesToUTF16LE (P : Nat → Bool) : List Nat → String
  | [] => ""
  | [_] => "."
  | a :: b :: rest =>
    let r := utf16Rune (a ||| b <<< 8)
    (if P r then String.mk [Char.ofNat r] else ".") ++ bytesToUTF16LE P rest

/-- `bytesToGB18030`: one whole-slice decode through the external GB18030
decoder; on error one `.` per input byte, on success a printability filter
over the decoded code points. -/
def bytesToGB18030 (P : Nat → Bool) (decodeGB : List Nat → Option (List Nat))
    (data : List Nat) : String :=
  match decodeGB data with
  | none => String.mk (List.replicate data.length '.')
  | some rs => String.mk (rs.map fun r => if P r then Char.ofNat r else '.')

/-- The application state (`HexDumpApp`).  Only the fields read by the
formatting core plus the presentation-layer fields (caches, scroll state)
that the determinism claim must show are irrelevant; widget handles are
omitted. -/
structure HexDumpApp where
  fileData : List Nat
  fileName : String
  bytesPerGroup : Nat
  encoding : String
  bytesPerLine : Nat
  visibleLines : Nat
  currentTopLine : Nat
  totalLines : Nat
  cachedHexLines : List (Nat × String)
  cachedCharLines : List (Nat × String)

/-- `bytesToChars`: encoding dispatch with Latin-1 as the default case. -/
def HexDumpApp.bytesToChars (h : HexDumpApp) (P : Nat → Bool)
    (decodeGB : List Nat → Option (List Nat)) (data : List Nat) : String :=
  if h.encoding = "ISO Latin-1" then bytesToLatin1 data
  else if h.encoding = "UTF-8" then bytesToUTF8 P data
  else if h.encoding = "UTF-16LE" then bytesToUTF16LE P data
  else if h.encoding = "GB 18030" then bytesToGB18030 P decodeGB data
  else bytesToLatin1 data

/-- `generateHexLine`: address field, grouped hex pairs, width padding,
trailing newline. -/
def HexDumpApp.generateHexLine (h : HexDumpApp) (offset : Nat) : String :=
  let dataLen := h.fileData.length
  let lineEnd := min (offset + h.bytesPerLine) dataLen
  addrField offset ++ hexGroups h.fileData h.bytesPerGroup lineEnd offset
    ++ hexLinePad dataLen h.bytesPerLine h.bytesPerGroup offset ++ "\n"

/-- `generateCharLine`: slices the line's bytes (`h.fileData[offset:lineEnd]`,
which panics — `none` — when `offset > lineEnd`) and decodes them. -/
def HexDumpApp.generateCharLine (h : HexDumpApp) (P : Nat → Bool)
    (decodeGB : List Nat → Option (List Nat)) (offset : Nat) : Option String :=
  let dataLen := h.fileData.length
  let lineEnd := min (offset + h.bytesPerLine) dataLen
  (goSlice h.fileData offset lineEnd).map
    fun lineData => h.bytesToChars P decodeGB lineData ++ "\n"

/-! ### Helper lemmas -/

theorem mk_length (l : List Char) : (String.mk l).length = l.length := rfl

theorem spaces_length (n : Nat) : (spaces n).length = n := by
  simp [spaces, mk_length]

theorem byteHex_length (b : Nat) : (byteHex b).length = 2 := rfl

theorem hexGroupBytes_length (data : List Nat) :
    ∀ count index, (hexGroupBytes data index count).length = 2 * count := by
  intro count
  induction count with
  | zero => intro index; rfl
  | succ m ih =>
    intro index
    simp only [hexGroupBytes, String.length_append, byteHex_length, ih]
    omega

theorem hexGroupsF_stop (data : List Nat) (g lineEnd : Nat) :
    ∀ fuel index, lineEnd ≤ index → hexGroupsF data g lineEnd index fuel = "" := by
  intro fuel index h
  cases fuel with
  | zero => rfl
  | succ f => simp [hexGroupsF, Nat.not_lt.mpr h]

theorem hexGroups_stop (data : List Nat) (g lineEnd index : Nat)
    (h : lineEnd ≤ index) : hexGroups data g lineEnd index = "" :=
  hexGroupsF_stop data g lineEnd _ index h

/-- Length of the grouped hex region: two characters per byte plus one
separator between consecutive groups. -/
theorem hexGroupsF_length (data : List Nat) (g lineEnd : Nat) (hg : 0 < g) :
    ∀ fuel index, index < lineEnd → lineEnd - index ≤ fuel →
      (hexGroupsF data g lineEnd index fuel).length
        = 2 * (lineEnd - index) + (lineEnd - index - 1) / g := by
  intro fuel
  induction fuel with
  | zero => intro index h1 h2; omega
  | succ f ih =>
    intro index h1 h2
    simp only [hexGroupsF]
    rw [if_pos h1]
    rw [String.length_append, String.length_append, hexGroupBytes_length]
    by_cases hmid : index + g < lineEnd
    · rw [min_eq_left (Nat.le_of_lt hmid)]
      rw [if_pos hmid]
      rw [ih (index + g) hmid (by omega)]
      have hsep : (" " : String).length = 1 := rfl
      rw [hsep]
      have e1 : index + g - index = g := by omega
      have e2 : lineEnd - (index + g) = lineEnd - index - g := by omega
      rw [e1, e2]
      have hid : (lineEnd - index - 1) / g = (lineEnd - index - g - 1) / g + 1 := by
        rw [show lineEnd - index - 1 = (lineEnd - index - g - 1) + g by omega,
          Nat.add_div_right _ hg]
      omega
    · rw [min_eq_right (by omega)]
      rw [if_neg (lt_irrefl lineEnd)]
      rw [hexGroupsF_stop data g lineEnd f (index + g) (by omega)]
      have hz : (lineEnd - index - 1) / g = 0 := Nat.div_eq_of_lt (by omega)
      rw [hz]
      rfl

theorem hexGroups_length (data : List Nat) (g lineEnd index : Nat)
    (hg : 0 < g) (h1 : index < lineEnd) :
    (hexGroups data g lineEnd index).length
      = 2 * (lineEnd - index) + (lineEnd - index - 1) / g :=
  hexGroupsF_length data g lineEnd hg _ index h1 (Nat.le_refl _)

theorem tdiv_coe (a b : Nat) : Int.tdiv (a : Int) (b : Int) = ((a / b : Nat) : Int) := rfl

/-- Length of the short-line padding block, for in-range offsets. -/
theorem hexLinePad_length (dataLen g offset : Nat) (hg : 0 < g)
    (hoff : offset ≤ dataLen) :
    (hexLinePad dataLen 16 g offset).length
      = 2 * (16 - (min (offset + 16) dataLen - offset))
        + ((16 + g - 1) / g
            - ((min (offset + 16) dataLen - offset) + g - 1) / g) := by
  have hmin1 : offset ≤ min (offset + 16) dataLen := le_min (by omega) hoff
  have hmin2 : min (offset + 16) dataLen ≤ offset + 16 := min_le_left _ _
  simp only [hexLinePad]
  set m := min (offset + 16) dataLen with hm
  set n := m - offset with hn
  have hcast : (m : Int) - (offset : Int) = ((n : Nat) : Int) := by omega
  rw [hcast]
  have hn16 : n ≤ 16 := by omega
  by_cases hlt : n < 16
  · rw [if_pos (by exact_mod_cast hlt)]
    rw [String.length_append, spaces_length, spaces_length]
    have h1 : ((n : Int) + (g : Int) - 1) = ((n + g - 1 : Nat) : Int) := by
      omega
    have h2 : (((16 : Nat) : Int) + (g : Int) - 1) = ((16 + g - 1 : Nat) : Int) := by
      push_cast
      omega
    rw [h1, h2, tdiv_coe, tdiv_coe]
    have hmono : (n + g - 1) / g ≤ (16 + g - 1) / g :=
      Nat.div_le_div_right (by omega)
    omega
  · rw [if_neg (by exact_mod_cast hlt)]
    have hne : n = 16 := by omega
    rw [hne]
    have h0 : ("" : String).length = 0 := rfl
    rw [h0]
    omega

theorem addrField_length (offset : Nat) :
    (addrField offset).length = max 8 (hexRepr offset).length + 2 := by
  simp only [addrField, padZero8, String.length_append, mk_length,
    List.length_replicate]
  have h2 : (": " : String).length = 2 := rfl
  rw [h2]
  omega

/-- A numeral below `16 ^ k` has at most `k` hex digits. -/
theorem hexReprF_length_le :
    ∀ fuel n k, 0 < k → n < 16 ^ k → n < fuel → (hexReprF fuel n).length ≤ k := by
  intro fuel
  induction fuel with
  | zero => intro n k _ _ h; omega
  | succ f ih =>
    intro n k hk hnk hnf
    simp only [hexReprF]
    split
    · exact hk
    · rename_i h16
      have hn16 : 16 ≤ n := by omega
      have hk2 : 2 ≤ k := by
        rcases k with _ | _ | k
        · omega
        · rw [pow_one] at hnk; omega
        · omega
      have hrec : n / 16 < 16 ^ (k - 1) := by
        have hpow : 16 ^ k = 16 ^ (k - 1) * 16 := by
          rw [← pow_succ]
          congr 1
          omega
        rw [hpow] at hnk
        exact Nat.div_lt_of_lt_mul (by omega)
      have hfuel : n / 16 < f := by
        have := Nat.div_lt_self (by omega : 0 < n) (by norm_num : 1 < 16)
        omega
      have := ih (n / 16) (k - 1) (by omega) hrec hfuel
      rw [String.length_append]
      have h1 : (String.mk [hexDigit (n % 16)]).length = 1 := rfl
      rw [h1]
      omega

theorem hexRepr_length_le (o : Nat) (ho : o < 2 ^ 32) : (hexRepr o).length ≤ 8 := by
  apply hexReprF_length_le (o + 1) o 8 (by norm_num)
  · have : (16 : Nat) ^ 8 = 2 ^ 32 := by norm_num
    omega
  · omega

/-- Exact character count of a hex line at an in-range offset: the address
field (eight digits, more for offsets at `2 ^ 32` and beyond), `": "`,
and a hex region plus padding whose combined width depends only on
`bytesPerGroup`, and the newline. -/
theorem generateHexLine_length (h : HexDumpApp) (offset : Nat)
    (hbpl : h.bytesPerLine = 16) (hg : 0 < h.bytesPerGroup)
    (hoff : offset < h.fileData.length) :
    (h.generateHexLine offset).length
      = max 8 (hexRepr offset).length + 34
          + (16 + h.bytesPerGroup - 1) / h.bytesPerGroup := by
  simp only [HexDumpApp.generateHexLine, hbpl]
  rw [String.length_append, String.length_append, String.length_append,
    addrField_length]
  have hmin1 : offset < min (offset + 16) h.fileData.length := lt_min (by omega) hoff
  rw [hexGroups_length h.fileData h.bytesPerGroup _ offset hg hmin1]
  rw [hexLinePad_length h.fileData.length h.bytesPerGroup offset hg (by omega)]
  obtain ⟨n, hn⟩ : ∃ n, min (offset + 16) h.fileData.length - offset = n := ⟨_, rfl⟩
  rw [hn]
  have hn1 : 1 ≤ n := by omega
  have hn16 : n ≤ 16 := by
    have : min (offset + 16) h.fileData.length ≤ offset + 16 := min_le_left _ _
    omega
  have hmono : (n + h.bytesPerGroup - 1) / h.bytesPerGroup
      ≤ (16 + h.bytesPerGroup - 1) / h.bytesPerGroup :=
    Nat.div_le_div_right (by omega)
  have hceil : (n + h.bytesPerGroup - 1) / h.bytesPerGroup
      = (n - 1) / h.bytesPerGroup + 1 := by
    rw [show n + h.bytesPerGroup - 1 = (n - 1) + h.bytesPerGroup by omega,
      Nat.add_div_right _ hg]
  have hnl : ("\n" : String).length = 1 := rfl
  rw [hnl]
  omega

/-- A convenient application state for concrete instances: the given file
data, grouping and encoding, with the defaults of `NewHexDumpApp` and the
presentation-layer fields at arbitrary values. -/
def sampleApp (data : List Nat) (g : Nat) (enc : String) : HexDumpApp :=
  HexDumpApp.mk data "" g enc 16 30 0 0 [] []

/-! ### C1: uniform hex-line width -/

/-- C1 (amended): for a fixed `bytesPerGroup ∈ {1,2,4,8,16}` and
`bytesPerLine = 16`, any two hex lines at in-range offsets that are
multiples of 16 — full or partial — have the same character width,
provided both offsets are below `2 ^ 32` so that the `%08X` address field
keeps its eight-digit width.  (Beyond `2 ^ 32` the address field grows and
the widths differ; see the counterexample.) -/
theorem hexLine_width_uniform (h : HexDumpApp) (o1 o2 : Nat)
    (hbpl : h.bytesPerLine = 16)
    (hgrp : h.bytesPerGroup ∈ ([1, 2, 4, 8, 16] : List Nat))
    (h1m : o1 % 16 = 0) (h1l : o1 < h.fileData.length) (h1b : o1 < 2 ^ 32)
    (h2m : o2 % 16 = 0) (h2l : o2 < h.fileData.length) (h2b : o2 < 2 ^ 32) :
    (h.generateHexLine o1).length = (h.generateHexLine o2).length := by
  have hg : 0 < h.bytesPerGroup := by
    have hg' : h.bytesPerGroup = 1 ∨ h.bytesPerGroup = 2 ∨ h.bytesPerGroup = 4
        ∨ h.bytesPerGroup = 8 ∨ h.bytesPerGroup = 16 := by simpa using hgrp
    rcases hg' with h' | h' | h' | h' | h' <;> rw [h'] <;> decide
  rw [generateHexLine_length h o1 hbpl hg h1l,
    generateHexLine_length h o2 hbpl hg h2l]
  have b1 : (hexRepr o1).length ≤ 8 := hexRepr_length_le o1 h1b
  have b2 : (hexRepr o2).length ≤ 8 := hexRepr_length_le o2 h2b
  rw [Nat.max_eq_left b1, Nat.max_eq_left b2]

/-- Witness for C1: a 20-byte buffer, full line at offset 0 and a 4-byte
partial line at offset 16, grouped by 4, have equal widths. -/
theorem hexLine_width_uniform_witness :
    ((sampleApp (List.range 20) 4 "ISO Latin-1").bytesPerLine = 16
        ∧ (sampleApp (List.range 20) 4 "ISO Latin-1").bytesPerGroup
            ∈ ([1, 2, 4, 8, 16] : List Nat)
        ∧ 0 % 16 = 0 ∧ 0 < (List.range 20).length ∧ 0 < 2 ^ 32
        ∧ 16 % 16 = 0 ∧ 16 < (List.range 20).length ∧ 16 < 2 ^ 32)
      ∧ ((sampleApp (List.range 20) 4 "ISO Latin-1").generateHexLine 0).length
        = ((sampleApp (List.range 20) 4 "ISO Latin-1").generateHexLine 16).length :=
  ⟨⟨rfl, by decide, rfl, by decide, by decide, rfl, by decide, by decide⟩,
    hexLine_width_uniform _ 0 16 rfl (by decide) rfl (by decide) (by decide)
      rfl (by decide) (by decide)⟩

/-- C1 counterexample: on a buffer longer than `2 ^ 32` bytes the claim as
stated fails — at offset `2 ^ 32` the `%08X` address field needs nine
digits and the (full) line is one character wider than the line at
offset 0, although both offsets are multiples of 16 and in range. -/
theorem hexLine_width_counterexample :
    ¬ (((sampleApp (List.replicate (2 ^ 32 + 16) 0) 16 "ISO Latin-1").generateHexLine (2 ^ 32)).length
        = ((sampleApp (List.replicate (2 ^ 32 + 16) 0) 16 "ISO Latin-1").generateHexLine 0).length) := by
  have hlen : (List.replicate (2 ^ 32 + 16) (0 : Nat)).length = 2 ^ 32 + 16 :=
    List.length_replicate _ _
  have e1 := generateHexLine_length
    (sampleApp (List.replicate (2 ^ 32 + 16) 0) 16 "ISO Latin-1")
    (2 ^ 32) rfl (show 0 < (16:Nat) by norm_num) (by rw [show (sampleApp (List.replicate (2 ^ 32 + 16) 0) 16 "ISO Latin-1").fileData = List.replicate (2 ^ 32 + 16) 0 from rfl, hlen]; omega)
  have e2 := generateHexLine_length
    (sampleApp (List.replicate (2 ^ 32 + 16) 0) 16 "ISO Latin-1")
    0 rfl (show 0 < (16:Nat) by norm_num) (by rw [show (sampleApp (List.replicate (2 ^ 32 + 16) 0) 16 "ISO Latin-1").fileData = List.replicate (2 ^ 32 + 16) 0 from rfl, hlen]; omega)
  rw [e1, e2]
  have h9 : (hexRepr (2 ^ 32)).length = 9 := by decide
  have h1 : (hexRepr 0).length = 1 := by decide
  rw [h9, h1]
  decide

/-! ### C2: the concrete "Hello" hex line -/

/-- C2 counterexample: on the five bytes of "Hello" at offset 0 with
one-byte grouping, `generateHexLine` does not return the 58-character
literal of the spec (address, hex pairs, then 34 spaces): the code pads
with 33 spaces and terminates the line with a newline. -/
theorem helloHexLine_counterexample :
    ¬ ((sampleApp [0x48, 0x65, 0x6C, 0x6C, 0x6F] 1 "ISO Latin-1").generateHexLine 0
        = "00000000: 48 65 6C 6C 6F" ++ String.mk (List.replicate 34 ' ')) := by
  decide

/-- C2 (amended): the hex line for the bytes of "Hello" at offset 0 with
`bytesPerGroup = 1` is the eight-digit zero-padded uppercase address, a
colon and space, the space-separated uppercase hex pairs, then 33 padding
spaces (two per missing byte, one per missing separator) and a newline —
58 characters in all. -/
theorem helloHexLine :
    (sampleApp [0x48, 0x65, 0x6C, 0x6C, 0x6F] 1 "ISO Latin-1").generateHexLine 0
        = "00000000: 48 65 6C 6C 6F" ++ String.mk (List.replicate 33 ' ') ++ "\n"
      ∧ ((sampleApp [0x48, 0x65, 0x6C, 0x6C, 0x6F] 1 "ISO Latin-1").generateHexLine 0).length = 58 := by
  constructor
  · decide
  · decide

/-! ### C3: behaviour at and past the end of the buffer -/

/-- On the empty byte slice every encoder yields the empty string (for
GB18030, provided the external decoder decodes no bytes to no code
points). -/
theorem bytesToChars_nil (h : HexDumpApp) (P : Nat → Bool)
    (decodeGB : List Nat → Option (List Nat)) (hdec : decodeGB [] = some []) :
    h.bytesToChars P decodeGB [] = "" := by
  simp only [HexDumpApp.bytesToChars]
  split_ifs
  · rfl
  · simp [bytesToUTF8]
  · rfl
  · simp [bytesToGB18030, hdec]
  · rfl

/-- C3 counterexample: with the empty buffer and offset 1 (which is
≥ the buffer length), `generateCharLine`'s slice `fileData[1:0]` faults
(Go panics with a slice-bounds error, modelled as `none`), so the two
formatters do not both return normally for every offset ≥ buffer
length. -/
theorem generateCharLine_counterexample :
    (sampleApp [] 1 "ISO Latin-1").generateCharLine
        (fun _ => true) (fun _ => none) 1 = none := by
  decide

/-- C3 (amended): for every offset ≥ the buffer length `generateHexLine`
returns normally with no hex byte pairs (address, padding and newline
only); `generateCharLine` returns normally — an empty line — exactly when
the offset equals the buffer length, and faults on its slice when the
offset exceeds it. -/
theorem formatters_past_end (h : HexDumpApp) (P : Nat → Bool)
    (decodeGB : List Nat → Option (List Nat)) (offset : Nat)
    (hoff : h.fileData.length ≤ offset) (hdec : decodeGB [] = some []) :
    h.generateHexLine offset
        = addrField offset
            ++ hexLinePad h.fileData.length h.bytesPerLine h.bytesPerGroup offset
            ++ "\n"
    ∧ (offset = h.fileData.length →
        h.generateCharLine P decodeGB offset = some "\n")
    ∧ (h.fileData.length < offset →
        h.generateCharLine P decodeGB offset = none) := by
  refine ⟨?_, ?_, ?_⟩
  · simp only [HexDumpApp.generateHexLine]
    have hstop : min (offset + h.bytesPerLine) h.fileData.length ≤ offset := by
      have := min_le_right (offset + h.bytesPerLine) h.fileData.length
      omega
    rw [hexGroups_stop _ _ _ _ hstop, String.append_empty]
  · intro he
    simp only [HexDumpApp.generateCharLine, goSlice]
    have hmin : min (offset + h.bytesPerLine) h.fileData.length
        = h.fileData.length := min_eq_right (by omega)
    rw [hmin, if_pos ⟨by omega, Nat.le_refl _⟩]
    have htake : (h.fileData.drop offset).take (h.fileData.length - offset) = [] := by
      rw [he]
      simp
    rw [htake]
    simp only [Option.map_some']
    rw [bytesToChars_nil h P decodeGB hdec, String.empty_append]
  · intro hlt
    simp only [HexDumpApp.generateCharLine, goSlice]
    rw [if_neg]
    · rfl
    · rintro ⟨hle, -⟩
      have := min_le_right (offset + h.bytesPerLine) h.fileData.length
      omega

/-- Witness for C3: a one-byte buffer at offset 1 (= its length) produces
the empty character line. -/
theorem formatters_past_end_witness :
    ((sampleApp [7] 1 "ISO Latin-1").fileData.length ≤ 1
        ∧ (fun _ : List Nat => some ([] : List Nat)) [] = some []
        ∧ 1 = (sampleApp [7] 1 "ISO Latin-1").fileData.length)
      ∧ (sampleApp [7] 1 "ISO Latin-1").generateCharLine
          (fun _ => true) (fun _ : List Nat => some ([] : List Nat)) 1 = some "\n" :=
  ⟨⟨by decide, rfl, by decide⟩,
    (formatters_past_end (sampleApp [7] 1 "ISO Latin-1") (fun _ => true)
      (fun _ : List Nat => some ([] : List Nat)) 1 (by decide) rfl).2.1 (by decide)⟩

/-! ### C4: GB18030 fallback and success paths -/

/-- C4: when the external GB18030 decoder fails on a slice,
`bytesToGB18030` returns exactly one `.` per input byte (its length is the
byte count, not a decoded-character count); when it succeeds, each decoded
code point is emitted literally if printable and as `.` otherwise. -/
theorem bytesToGB18030_spec (P : Nat → Bool)
    (decodeGB : List Nat → Option (List Nat)) (data : List Nat) :
    (decodeGB data = none →
        bytesToGB18030 P decodeGB data = String.mk (List.replicate data.length '.')
        ∧ (bytesToGB18030 P decodeGB data).length = data.length)
    ∧ (∀ rs, decodeGB data = some rs →
        bytesToGB18030 P decodeGB data
          = String.mk (rs.map fun r => if P r then Char.ofNat r else '.')) := by
  constructor
  · intro hfail
    have h1 : bytesToGB18030 P decodeGB data
        = String.mk (List.replicate data.length '.') := by
      simp only [bytesToGB18030, hfail]
    refine ⟨h1, ?_⟩
    rw [h1, mk_length, List.length_replicate]
  · intro rs hok
    simp only [bytesToGB18030, hok]

/-- Witness for C4: a decoder that rejects `[1, 2]` produces `".."`. -/
theorem bytesToGB18030_spec_witness :
    ((fun _ : List Nat => (none : Option (List Nat))) [1, 2] = none)
      ∧ (bytesToGB18030 (fun _ => true) (fun _ : List Nat => none) [1, 2]
            = String.mk (List.replicate ([1, 2] : List Nat).length '.')
          ∧ (bytesToGB18030 (fun _ => true) (fun _ : List Nat => none) [1, 2]).length
            = ([1, 2] : List Nat).length) :=
  ⟨rfl, (bytesToGB18030_spec (fun _ => true) (fun _ : List Nat => none) [1, 2]).1 rfl⟩

/-! ### C5: greedy UTF-8 decoding -/

/-- C5: `bytesToUTF8` decodes greedily one code point at a time: on a
decode failure (`decodeRune` yields the replacement rune with size 1, as
it does for any continuation or overlong lead byte such as a lone `0x80`)
it emits exactly one `.` and advances one byte; on success it emits the
code point when printable and `.` otherwise, advancing by the code
point's encoded byte length. -/
theorem bytesToUTF8_spec (P : Nat → Bool) (data : List Nat) (hne : data ≠ []) :
    ((decodeRune data).1 = 0xFFFD ∧ (decodeRune data).2 = 1 →
        bytesToUTF8 P data = "." ++ bytesToUTF8 P (data.drop 1))
    ∧ (¬ ((decodeRune data).1 = 0xFFFD ∧ (decodeRune data).2 = 1) →
        bytesToUTF8 P data
          = (if P (decodeRune data).1 then String.mk [Char.ofNat (decodeRune data).1]
              else ".")
            ++ bytesToUTF8 P (data.drop (decodeRune data).2))
    ∧ (∀ b rest, 0x80 ≤ b → b < 0xC2 → decodeRune (b :: rest) = (0xFFFD, 1)) := by
  refine ⟨?_, ?_, ?_⟩
  · intro hfail
    rw [bytesToUTF8, dif_neg hne, if_pos hfail]
  · intro hsucc
    rw [bytesToUTF8, dif_neg hne, if_neg hsucc]
  · intro b rest hb1 hb2
    simp only [decodeRune]
    rw [if_neg (by omega), if_pos (by omega)]

/-- Witness for C5: the lone continuation byte `0x80` fails to decode and
yields exactly one `.`. -/
theorem bytesToUTF8_spec_witness :
    (([0x80] : List Nat) ≠ []
        ∧ (decodeRune [0x80]).1 = 0xFFFD ∧ (decodeRune [0x80]).2 = 1)
      ∧ bytesToUTF8 (fun _ => true) [0x80]
          = "." ++ bytesToUTF8 (fun _ => true) (List.drop 1 [0x80]) :=
  ⟨⟨by decide, by decide, by decide⟩,
    (bytesToUTF8_spec (fun _ => true) [0x80] (by decide)).1 ⟨by decide, by decide⟩⟩

/-! ### C6: UTF-16LE decoding -/

/-- The value of the 16-bit code unit `low ||| high <<< 8` is
`low + 256 * high`: the first byte of each pair is the low-order byte. -/
theorem lor_low_high (a b : Nat) (ha : a < 256) : a ||| b <<< 8 = a + 256 * b := by
  apply Nat.eq_of_testBit_eq
  intro i
  have hsum : a + 256 * b = 2 ^ 8 * b + a := by
    have h256 : (256 : Nat) = 2 ^ 8 := by norm_num
    rw [h256]
    ring
  have ha' : a < 2 ^ 8 := by norm_num at *; omega
  rw [hsum, Nat.testBit_mul_pow_two_add b ha' i, Nat.testBit_or,
    Nat.testBit_shiftLeft]
  by_cases hi : i < 8
  · have hge : ¬ 8 ≤ i := by omega
    simp [hi, hge]
  · have hge : 8 ≤ i := by omega
    have hza : a.testBit i = false :=
      Nat.testBit_lt_two_pow (lt_of_lt_of_le ha' (Nat.pow_le_pow_right (by norm_num) hge))
    simp [hi, hge, hza]

/-- C6: `bytesToUTF16LE` consumes little-endian byte pairs (low byte
first), decodes each 16-bit unit independently — a lone surrogate unit
becomes the replacement rune, no surrogate pairs are combined — emitting
the character when printable and `.` otherwise; an odd-length slice emits
exactly one trailing `.` for its final unpaired byte. -/
theorem bytesToUTF16LE_spec (P : Nat → Bool) (a b : Nat) (rest data : List Nat) :
    bytesToUTF16LE P [] = ""
    ∧ bytesToUTF16LE P [a] = "."
    ∧ bytesToUTF16LE P (a :: b :: rest)
        = (if P (utf16Rune (a ||| b <<< 8)) then
            String.mk [Char.ofNat (utf16Rune (a ||| b <<< 8))] else ".")
          ++ bytesToUTF16LE P rest
    ∧ (a < 256 → a ||| b <<< 8 = a + 256 * b)
    ∧ (∀ u, 0xD800 ≤ u → u < 0xE000 → utf16Rune u = 0xFFFD)
    ∧ (data.length % 2 = 1 →
        bytesToUTF16LE P data
          = bytesToUTF16LE P (data.take (data.length - 1)) ++ ".") := by
  refine ⟨rfl, rfl, rfl, fun ha => lor_low_high a b ha, ?_, ?_⟩
  · intro u h1 h2
    simp [utf16Rune, h1, h2]
  · have key : ∀ n (l : List Nat), l.length ≤ n → l.length % 2 = 1 →
        bytesToUTF16LE P l = bytesToUTF16LE P (l.take (l.length - 1)) ++ "." := by
      intro n
      induction n with
      | zero =>
        intro l hl hodd
        omega
      | succ m ih =>
        intro l hl hodd
        match l with
        | [] => simp at hodd
        | [x] => rfl
        | x :: y :: rest' =>
          have hodd' : rest'.length % 2 = 1 := by
            simp only [List.length_cons] at hodd
            omega
          have hlen : (x :: y :: rest').length - 1 = rest'.length + 1 := by
            simp only [List.length_cons]
            omega
          have htake : (x :: y :: rest').take ((x :: y :: rest').length - 1)
              = x :: y :: rest'.take (rest'.length - 1) := by
            rw [hlen]
            have : rest'.length + 1 = (rest'.length - 1) + 2 := by omega
            rw [this]
            simp [List.take_succ_cons]
          rw [htake]
          show _ ++ bytesToUTF16LE P rest' = (_ ++ bytesToUTF16LE P (rest'.take (rest'.length - 1))) ++ "."
          rw [ih rest' (by simp only [List.length_cons] at hl; omega) hodd']
          rw [String.append_assoc]
    intro hodd
    exact key data.length data (Nat.le_refl _) hodd

/-- Witness for C6: the odd-length slice `[72, 0, 255]` ends in one
trailing `.`. -/
theorem bytesToUTF16LE_spec_witness :
    (([72, 0, 255] : List Nat).length % 2 = 1 ∧ (72 : Nat) < 256
        ∧ 0xD800 ≤ (0xD801 : Nat) ∧ (0xD801 : Nat) < 0xE000)
      ∧ bytesToUTF16LE (fun _ => true) [72, 0, 255]
          = bytesToUTF16LE (fun _ => true)
              (([72, 0, 255] : List Nat).take (([72, 0, 255] : List Nat).length - 1)) ++ "."
      ∧ (72 : Nat) ||| (0 : Nat) <<< 8 = 72 + 256 * 0
      ∧ utf16Rune 0xD801 = 0xFFFD :=
  ⟨⟨by decide, by decide, by decide, by decide⟩,
    (bytesToUTF16LE_spec (fun _ => true) 72 0 [] [72, 0, 255]).2.2.2.2.2 (by decide),
    (bytesToUTF16LE_spec (fun _ => true) 72 0 [] [72, 0, 255]).2.2.2.1 (by decide),
    (bytesToUTF16LE_spec (fun _ => true) 72 0 [] [72, 0, 255]).2.2.2.2.1 0xD801
      (by decide) (by decide)⟩

/-! ### C7 and C10: Latin-1 -/

/-- The per-byte mapping applied by `bytesToLatin1`. -/
def latin1Char (b : Nat) : Char :=
  if 32 ≤ b ∧ b ≤ 126 then Char.ofNat b
  else if 160 ≤ b ∧ b ≤ 255 then Char.ofNat b
  else '.'

theorem bytesToLatin1_data (data : List Nat) :
    (bytesToLatin1 data).data = data.map latin1Char := by
  induction data with
  | nil => rfl
  | cons b rest ih =>
    simp only [bytesToLatin1, List.map_cons, String.data_append, ih, latin1Char]
    split_ifs <;> rfl

/-- C7: `bytesToLatin1` maps each byte independently — printable ASCII
32–126 and the ISO-8859-1 identity range 160–255 become the code point
equal to the byte value, all other bytes (0–31 and 127–159) become `.` —
and it renders `[0x48, 0x65, 0x6C, 0x6C, 0x6F]` as `"Hello"`. -/
theorem bytesToLatin1_spec (data : List Nat) :
    bytesToLatin1 data = String.mk (data.map latin1Char)
    ∧ (∀ b, (32 ≤ b ∧ b ≤ 126 → latin1Char b = Char.ofNat b)
        ∧ (160 ≤ b ∧ b ≤ 255 → latin1Char b = Char.ofNat b)
        ∧ (b ≤ 31 ∨ (127 ≤ b ∧ b ≤ 159) → latin1Char b = '.'))
    ∧ bytesToLatin1 [0x48, 0x65, 0x6C, 0x6C, 0x6F] = "Hello" := by
  refine ⟨String.ext (bytesToLatin1_data data), ?_, by decide⟩
  intro b
  refine ⟨fun h => ?_, fun h => ?_, fun h => ?_⟩
  · simp only [latin1Char]
    rw [if_pos h]
  · simp only [latin1Char]
    rw [if_neg (by omega), if_pos h]
  · simp only [latin1Char]
    rw [if_neg (by omega), if_neg (by omega)]

/-- Witness for C7: one byte from each of the three ranges. -/
theorem bytesToLatin1_spec_witness :
    ((32 ≤ 65 ∧ 65 ≤ 126) ∧ (160 ≤ 200 ∧ 200 ≤ 255)
        ∧ ((10 : Nat) ≤ 31 ∨ (127 ≤ 10 ∧ 10 ≤ 159)))
      ∧ latin1Char 65 = Char.ofNat 65
      ∧ latin1Char 200 = Char.ofNat 200
      ∧ latin1Char 10 = '.' :=
  ⟨⟨⟨by decide, by decide⟩, ⟨by decide, by decide⟩, Or.inl (by decide)⟩,
    ((bytesToLatin1_spec []).2.1 65).1 ⟨by decide, by decide⟩,
    ((bytesToLatin1_spec []).2.1 200).2.1 ⟨by decide, by decide⟩,
    ((bytesToLatin1_spec []).2.1 10).2.2 (Or.inl (by decide))⟩

/-- C10: `bytesToLatin1` emits exactly one character (rune) per input
byte, so the Latin-1 character column aligns byte-for-byte with the hex
column. -/
theorem bytesToLatin1_length (data : List Nat) :
    (bytesToLatin1 data).length = data.length := by
  have h : (bytesToLatin1 data).length = (bytesToLatin1 data).data.length := rfl
  rw [h, bytesToLatin1_data, List.length_map]

/-! ### C8: grouping does not change which bytes appear -/

/-- Every space removed from a string; on a hex line this leaves the
address, the hex digit pairs and the newline. -/
def stripSpaces (s : String) : String :=
  String.mk (s.data.filter fun c => c != ' ')

theorem mem_groups_pos (g : Nat) (hgrp : g ∈ ([1, 2, 4, 8, 16] : List Nat)) :
    0 < g := by
  have hg' : g = 1 ∨ g = 2 ∨ g = 4 ∨ g = 8 ∨ g = 16 := by simpa using hgrp
  rcases hg' with h | h | h | h | h <;> omega

/-- The hex digit pairs of the bytes at positions `index, index+1, …`
(`count` of them), with no separators: the grouping-independent content
of the hex region. -/
def hexFlatChars (data : List Nat) : Nat → Nat → List Char
  | _, 0 => []
  | index, count + 1 =>
    (byteHex (data.getD index 0)).data ++ hexFlatChars data (index + 1) count

theorem hexGroupBytes_data (data : List Nat) :
    ∀ count index, (hexGroupBytes data index count).data
      = hexFlatChars data index count := by
  intro count
  induction count with
  | zero => intro index; rfl
  | succ m ih =>
    intro index
    simp only [hexGroupBytes, hexFlatChars, String.data_append, ih]

theorem hexFlatChars_add (data : List Nat) :
    ∀ a b index, hexFlatChars data index (a + b)
      = hexFlatChars data index a ++ hexFlatChars data (index + a) b := by
  intro a
  induction a with
  | zero => intro b index; simp [hexFlatChars]
  | succ m ih =>
    intro b index
    rw [show m + 1 + b = (m + b) + 1 by omega]
    simp only [hexFlatChars, ih, List.append_assoc]
    rw [show index + 1 + m = index + (m + 1) by omega]

theorem filter_replicate_space (n : Nat) :
    (List.replicate n ' ').filter (fun c => c != ' ') = [] := by
  induction n with
  | zero => rfl
  | succ m ih => simp [List.replicate_succ, List.filter_cons, ih]

theorem hexLinePad_data_filter (dataLen bytesPerLine g offset : Nat) :
    (hexLinePad dataLen bytesPerLine g offset).data.filter (fun c => c != ' ')
      = [] := by
  simp only [hexLinePad]
  split
  · simp only [spaces, String.data_append, List.filter_append]
    rw [filter_replicate_space, filter_replicate_space]
    rfl
  · rfl

/-- Stripping the spaces from the grouped hex region leaves the flat hex
digit pairs, independently of the grouping `g`. -/
theorem hexGroupsF_stripped (data : List Nat) (g lineEnd : Nat) (hg : 0 < g) :
    ∀ fuel index, lineEnd - index ≤ fuel →
      (hexGroupsF data g lineEnd index fuel).data.filter (fun c => c != ' ')
        = (hexFlatChars data index (lineEnd - index)).filter (fun c => c != ' ') := by
  intro fuel
  induction fuel with
  | zero =>
    intro index hle
    rw [show lineEnd - index = 0 by omega]
    rfl
  | succ f ih =>
    intro index hle
    by_cases h1 : index < lineEnd
    · simp only [hexGroupsF]
      rw [if_pos h1]
      simp only [String.data_append, List.filter_append, hexGroupBytes_data]
      by_cases hmid : index + g < lineEnd
      · rw [min_eq_left (Nat.le_of_lt hmid)]
        rw [if_pos hmid]
        rw [ih (index + g) (by omega)]
        rw [show index + g - index = g by omega]
        rw [show lineEnd - index = g + (lineEnd - (index + g)) by omega]
        rw [hexFlatChars_add data g (lineEnd - (index + g)) index,
          List.filter_append]
        have hsep : (" " : String).data.filter (fun c => c != ' ') = [] := rfl
        rw [hsep]
        simp
      · rw [min_eq_right (by omega)]
        rw [if_neg (lt_irrefl lineEnd)]
        rw [hexGroupsF_stop data g lineEnd f (index + g) (by omega)]
        have hsep : (if lineEnd < lineEnd then " " else "").data.filter
            (fun c => c != ' ') = [] := by
          rw [if_neg (lt_irrefl lineEnd)]
          rfl
        have hnil : ("" : String).data.filter (fun c => c != ' ') = [] := rfl
        rw [hnil]
        simp
    · rw [hexGroupsF_stop data g lineEnd (f + 1) index (by omega)]
      rw [show lineEnd - index = 0 by omega]
      rfl

theorem hexGroups_data_filter (data : List Nat) (g lineEnd index : Nat)
    (hg : 0 < g) :
    (hexGroups data g lineEnd index).data.filter (fun c => c != ' ')
      = (hexFlatChars data index (lineEnd - index)).filter (fun c => c != ' ') :=
  hexGroupsF_stripped data g lineEnd hg _ index (Nat.le_refl _)

/-- C8: with the buffer, line width and offset fixed, changing
`bytesPerGroup` alone does not change which bytes the hex line shows:
after removing all (separator and padding) spaces the lines are
identical. -/
theorem hexLine_grouping_invariant (h1 h2 : HexDumpApp) (offset : Nat)
    (hdata : h1.fileData = h2.fileData) (hbpl : h1.bytesPerLine = h2.bytesPerLine)
    (hg1 : h1.bytesPerGroup ∈ ([1, 2, 4, 8, 16] : List Nat))
    (hg2 : h2.bytesPerGroup ∈ ([1, 2, 4, 8, 16] : List Nat)) :
    stripSpaces (h1.generateHexLine offset) = stripSpaces (h2.generateHexLine offset) := by
  have hp1 : 0 < h1.bytesPerGroup := mem_groups_pos _ hg1
  have hp2 : 0 < h2.bytesPerGroup := mem_groups_pos _ hg2
  unfold stripSpaces
  apply congrArg
  simp only [HexDumpApp.generateHexLine, String.data_append, List.filter_append,
    hdata, hbpl]
  rw [hexGroups_data_filter _ _ _ _ hp1, hexGroups_data_filter _ _ _ _ hp2]
  rw [hexLinePad_data_filter, hexLinePad_data_filter]

/-- Witness for C8: grouping 2 versus grouping 8 on a three-byte buffer. -/
theorem hexLine_grouping_invariant_witness :
    ((sampleApp [1, 2, 3] 2 "ISO Latin-1").fileData
          = (sampleApp [1, 2, 3] 8 "ISO Latin-1").fileData
        ∧ (sampleApp [1, 2, 3] 2 "ISO Latin-1").bytesPerLine
          = (sampleApp [1, 2, 3] 8 "ISO Latin-1").bytesPerLine
        ∧ (sampleApp [1, 2, 3] 2 "ISO Latin-1").bytesPerGroup
            ∈ ([1, 2, 4, 8, 16] : List Nat)
        ∧ (sampleApp [1, 2, 3] 8 "ISO Latin-1").bytesPerGroup
            ∈ ([1, 2, 4, 8, 16] : List Nat))
      ∧ stripSpaces ((sampleApp [1, 2, 3] 2 "ISO Latin-1").generateHexLine 0)
        = stripSpaces ((sampleApp [1, 2, 3] 8 "ISO Latin-1").generateHexLine 0) :=
  ⟨⟨rfl, rfl, by decide, by decide⟩,
    hexLine_grouping_invariant (sampleApp [1, 2, 3] 2 "ISO Latin-1")
      (sampleApp [1, 2, 3] 8 "ISO Latin-1") 0 rfl rfl (by decide) (by decide)⟩

/-! ### C9: formatting is deterministic -/

/-- C9: the formatters are pure functions of the buffer, offset and
settings: two application states that agree on `fileData`, `bytesPerLine`,
`bytesPerGroup` and `encoding` — whatever their caches, scroll state or
file name — produce identical hex lines, character lines and decoded
strings, so repeated formatting of the same input cannot drift. -/
theorem formatting_deterministic (h1 h2 : HexDumpApp) (P : Nat → Bool)
    (decodeGB : List Nat → Option (List Nat)) (offset : Nat) (data : List Nat)
    (hd : h1.fileData = h2.fileData) (hbpl : h1.bytesPerLine = h2.bytesPerLine)
    (hg : h1.bytesPerGroup = h2.bytesPerGroup) (he : h1.encoding = h2.encoding) :
    h1.generateHexLine offset = h2.generateHexLine offset
    ∧ h1.generateCharLine P decodeGB offset = h2.generateCharLine P decodeGB offset
    ∧ h1.bytesToChars P decodeGB data = h2.bytesToChars P decodeGB data := by
  refine ⟨?_, ?_, ?_⟩
  · simp only [HexDumpApp.generateHexLine, hd, hbpl, hg]
  · simp only [HexDumpApp.generateCharLine, HexDumpApp.bytesToChars, hd, hbpl, he]
  · simp only [HexDumpApp.bytesToChars, he]

/-- Witness for C9: two states sharing buffer and settings but differing
in file name, scroll position and caches format identically. -/
theorem formatting_deterministic_witness :
    ((HexDumpApp.mk [1, 200] "a.bin" 2 "UTF-8" 16 30 0 0 [(0, "junk")] []).fileData
          = (HexDumpApp.mk [1, 200] "" 2 "UTF-8" 16 99 5 7 [] [(1, "junk")]).fileData
        ∧ (HexDumpApp.mk [1, 200] "a.bin" 2 "UTF-8" 16 30 0 0 [(0, "junk")] []).bytesPerLine
          = (HexDumpApp.mk [1, 200] "" 2 "UTF-8" 16 99 5 7 [] [(1, "junk")]).bytesPerLine
        ∧ (HexDumpApp.mk [1, 200] "a.bin" 2 "UTF-8" 16 30 0 0 [(0, "junk")] []).bytesPerGroup
          = (HexDumpApp.mk [1, 200] "" 2 "UTF-8" 16 99 5 7 [] [(1, "junk")]).bytesPerGroup
        ∧ (HexDumpApp.mk [1, 200] "a.bin" 2 "UTF-8" 16 30 0 0 [(0, "junk")] []).encoding
          = (HexDumpApp.mk [1, 200] "" 2 "UTF-8" 16 99 5 7 [] [(1, "junk")]).encoding)
      ∧ ((HexDumpApp.mk [1, 200] "a.bin" 2 "UTF-8" 16 30 0 0 [(0, "junk")] []).generateHexLine 0
          = (HexDumpApp.mk [1, 200] "" 2 "UTF-8" 16 99 5 7 [] [(1, "junk")]).generateHexLine 0
        ∧ (HexDumpApp.mk [1, 200] "a.bin" 2 "UTF-8" 16 30 0 0 [(0, "junk")] []).generateCharLine
            (fun _ => true) (fun _ => none) 0
          = (HexDumpApp.mk [1, 200] "" 2 "UTF-8" 16 99 5 7 [] [(1, "junk")]).generateCharLine
            (fun _ => true) (fun _ => none) 0
        ∧ (HexDumpApp.mk [1, 200] "a.bin" 2 "UTF-8" 16 30 0 0 [(0, "junk")] []).bytesToChars
            (fun _ => true) (fun _ => none) [1, 200]
          = (HexDumpApp.mk [1, 200] "" 2 "UTF-8" 16 99 5 7 [] [(1, "junk")]).bytesToChars
            (fun _ => true) (fun _ => none) [1, 200]) :=
  ⟨⟨rfl, rfl, rfl, rfl⟩,
    formatting_deterministic
      (HexDumpApp.mk [1, 200] "a.bin" 2 "UTF-8" 16 30 0 0 [(0, "junk")] [])
      (HexDumpApp.mk [1, 200] "" 2 "UTF-8" 16 99 5 7 [] [(1, "junk")])
      (fun _ => true) (fun _ => none) 0 [1, 200] rfl rfl rfl rfl⟩

end Hexdump
